import Mathlib

/-!
Shallow embedding of the ESLint rule `require-take-until-destroyed`
(src/lib/rules/require-take-until-destroyed.js).

The rule tracks aliases of termination operators introduced by import
declarations, locates a `.pipe(...)` call directly under a `.subscribe(...)`
call site, and classifies the pipe's arguments to decide whether a
termination operator is present; when it is not, one diagnostic with the
fixed message id `missingTakeUntilDestroyed` is reported.
-/

namespace TakeUntilDestroyedRule

/-- Fragment of the ESTree expression shapes the rule inspects. Fields that
the JavaScript code null-guards (`callee`, `property`, `arguments`, the
receiver object) are `Option`s; any node shape the rule does not inspect is
collapsed into `Other`. -/
inductive Node : Type where
  | Identifier (name : String)
  | MemberExpression (object : Option Node) (property : Option Node)
  | CallExpression (callee : Option Node) (args : Option (List Node))
  | Other

/-- The `.name` field of a node: only identifiers carry one (a computed
member property or any other node yields `undefined`, i.e. `none`). -/
def nodeName : Node → Option String
  | .Identifier n => some n
  | _ => none

/-- The `.arguments` field of a node: only call expressions carry one. -/
def nodeArguments : Node → Option (List Node)
  | .CallExpression _ args => args
  | _ => none

/-- Substring containment on character lists, the semantics of JavaScript
`String.prototype.includes`. -/
def charsContain (pat : List Char) : List Char → Bool
  | [] => pat.isEmpty
  | c :: rest => List.isPrefixOf pat (c :: rest) || charsContain pat rest

/-- `strContains s pat` embeds `s.includes(pat)`. -/
def strContains (s pat : String) : Bool :=
  charsContain pat.toList s.toList

/-- The constant set `rxjsTakeOperators` from `create`. -/
def rxjsTakeOperators : List String :=
  ["takeUntil", "takeWhile", "take", "takeLast"]

/-- JavaScript `Set.prototype.add` on a list-represented string set:
inserts the element only when it is not already a member. -/
def setAdd (s : List String) (x : String) : List String :=
  if x ∈ s then s else s ++ [x]

/-- The per-file mutable state of `create`: the two alias sets. -/
structure RuleState where
  takeUntilDestroyedAliases : List String
  rxjsTakeOperatorAliases : List String

/-- The state at the start of an analysis pass:
`new Set(['takeUntilDestroyed'])` and `new Set([...rxjsTakeOperators])`. -/
def initialState : RuleState :=
  { takeUntilDestroyedAliases := ["takeUntilDestroyed"]
    rxjsTakeOperatorAliases := rxjsTakeOperators }

/-- An import specifier node: its `type` tag, the `.name` of its `imported`
node when present, and its `local.name`. -/
structure SpecifierNode where
  specType : String
  imported : Option String
  localName : String

/-- An `ImportDeclaration` node: `source.value` and the specifier list. -/
structure ImportDeclarationNode where
  source : String
  specifiers : List SpecifierNode

/-- The guard of the interop branch of `ImportDeclaration`:
`specifier.type === 'ImportSpecifier' && specifier.imported &&
specifier.imported.name === 'takeUntilDestroyed'`. -/
def isInteropTakeUntilDestroyed (spec : SpecifierNode) : Bool :=
  spec.specType == "ImportSpecifier" &&
    (match spec.imported with
     | some n => n == "takeUntilDestroyed"
     | none => false)

/-- The guard of the rxjs branch of `ImportDeclaration`:
`specifier.type === 'ImportSpecifier' && specifier.imported &&
rxjsTakeOperators.has(specifier.imported.name)`. -/
def isRxjsTakeOperator (spec : SpecifierNode) : Bool :=
  spec.specType == "ImportSpecifier" &&
    (match spec.imported with
     | some n => rxjsTakeOperators.contains n
     | none => false)

/-- One step of the interop `forEach`: conditionally add the local name to
`takeUntilDestroyedAliases`. -/
def interopStep (s : RuleState) (spec : SpecifierNode) : RuleState :=
  if isInteropTakeUntilDestroyed spec then
    { s with takeUntilDestroyedAliases :=
        setAdd s.takeUntilDestroyedAliases spec.localName }
  else s

/-- One step of the rxjs `forEach`: conditionally add the local name to
`rxjsTakeOperatorAliases`. -/
def rxjsStep (s : RuleState) (spec : SpecifierNode) : RuleState :=
  if isRxjsTakeOperator spec then
    { s with rxjsTakeOperatorAliases :=
        setAdd s.rxjsTakeOperatorAliases spec.localName }
  else s

/-- The `ImportDeclaration` visitor: first the interop branch, then the
rxjs branch, each iterating over the specifiers. -/
def observeImport (st : RuleState) (node : ImportDeclarationNode) : RuleState :=
  let st1 :=
    if node.source == "@angular/core/rxjs-interop" then
      node.specifiers.foldl interopStep st
    else st
  if node.source == "rxjs" || node.source == "rxjs/operators" then
    node.specifiers.foldl rxjsStep st1
  else st1

/-- `findPipeCallBeforeSubscribe(objectExpr)`: returns the receiver itself
when it is a call whose callee is a member access with property name
`pipe`; `null` in every other case. -/
def findPipeCallBeforeSubscribe : Option Node → Option Node
  | none => none
  | some e =>
    match e with
    | .CallExpression callee args =>
      (match callee with
       | some (.MemberExpression _ (some p)) =>
         if nodeName p = some "pipe" then
           some (Node.CallExpression callee args)
         else none
       | _ => none)
    | _ => none

/-- The body of the `arguments.some(...)` callback in
`checkForTakeOperatorsInPipe`: the three match rules, in source order
(direct call to an identifier in either alias set; the bare-identifier
name heuristic; a call whose member-access property name is in either
alias set). -/
def argMatches (d t : List String) : Node → Bool
  | .CallExpression (some (.Identifier n)) _ =>
      d.contains n || t.contains n
  | .Identifier name =>
      strContains name "destroy" || strContains name "Destroy" ||
      strContains name "unsubscribe" || strContains name "Unsubscribe" ||
      strContains name "take"
  | .CallExpression (some (.MemberExpression _ (some p))) _ =>
      (match nodeName p with
       | some n => d.contains n || t.contains n
       | none => false)
  | _ => false

/-- `checkForTakeOperatorsInPipe(pipeCall, takeUntilDestroyedAliases,
rxjsTakeOperatorAliases)`: false on a null pipe call, an absent argument
list, or an empty one; otherwise `arguments.some(argMatches)`. -/
def checkForTakeOperatorsInPipe (pipeCall : Option Node)
    (d t : List String) : Bool :=
  match pipeCall with
  | none => false
  | some p =>
    match nodeArguments p with
    | none => false
    | some args => if args.isEmpty then false else args.any (argMatches d t)

/-- The legacy wrapper kept for backward compatibility:
`checkForTakeOperatorsInPipe(pipeCall, aliases, new Set())`. -/
def checkForTakeUntilDestroyedInPipe (pipeCall : Option Node)
    (aliases : List String) : Bool :=
  checkForTakeOperatorsInPipe pipeCall aliases []

/-- A `<receiver>.subscribe(...)` call site: the receiver expression
`node.callee.object` and the arguments passed to `subscribe` itself. -/
structure SubscribeCallNode where
  calleeObject : Option Node
  callArguments : List Node

/-- The single message id of the rule. -/
def missingMessage : String := "missingTakeUntilDestroyed"

/-- The `CallExpression[callee.property.name="subscribe"]` visitor, as the
list of message ids it reports for one call site: one diagnostic when no
pipe call is found or the classifier is negative, none otherwise. The
arguments of `subscribe` itself are never consulted. -/
def processSubscribe (st : RuleState) (node : SubscribeCallNode) :
    List String :=
  match findPipeCallBeforeSubscribe node.calleeObject with
  | none => [missingMessage]
  | some p =>
    if checkForTakeOperatorsInPipe (some p)
        st.takeUntilDestroyedAliases st.rxjsTakeOperatorAliases then []
    else [missingMessage]

/-- Convenience constructor: the AST of `<obj>.pipe(<args>)`. -/
def pipeNode (obj : Option Node) (args : List Node) : Node :=
  Node.CallExpression
    (some (Node.MemberExpression obj (some (Node.Identifier "pipe"))))
    (some args)

/-- Convenience constructor: the AST of a direct call `n(...)`. -/
def directCall (n : String) (a : Option (List Node)) : Node :=
  Node.CallExpression (some (Node.Identifier n)) a

/-- ASCII lower-casing of a character, for the spec-side reading of the
heuristic. -/
def lowerChar (c : Char) : Char :=
  if 'A' ≤ c ∧ c ≤ 'Z' then Char.ofNat (c.toNat + 32) else c

/-- ASCII lower-casing of a string. -/
def lowerStr (s : String) : String :=
  String.mk (s.toList.map lowerChar)

/-- Modelled from the spec: the spec's reading of match rule 3, "a bare
identifier argument (no call) whose name, case-insensitively, contains any
of the substrings destroy, unsubscribe, take". Stated for comparison with
`argMatches`, which is translated from the source. -/
def specCaseInsensitiveHeuristic (name : String) : Bool :=
  strContains (lowerStr name) "destroy" ||
  strContains (lowerStr name) "unsubscribe" ||
  strContains (lowerStr name) "take"

/-! Helper lemmas about the alias-set operations. -/

lemma setAdd_eq_append (s : List String) (y : String) :
    ∃ e, setAdd s y = s ++ e := by
  unfold setAdd
  split
  · exact ⟨[], by simp⟩
  · exact ⟨[y], rfl⟩

lemma mem_setAdd_self (s : List String) (y : String) : y ∈ setAdd s y := by
  unfold setAdd
  split
  · assumption
  · simp

lemma interopStep_rxjs (s : RuleState) (spec : SpecifierNode) :
    (interopStep s spec).rxjsTakeOperatorAliases =
      s.rxjsTakeOperatorAliases := by
  unfold interopStep; split <;> rfl

lemma rxjsStep_destroy (s : RuleState) (spec : SpecifierNode) :
    (rxjsStep s spec).takeUntilDestroyedAliases =
      s.takeUntilDestroyedAliases := by
  unfold rxjsStep; split <;> rfl

lemma interopStep_append (s : RuleState) (spec : SpecifierNode) :
    ∃ e, (interopStep s spec).takeUntilDestroyedAliases =
      s.takeUntilDestroyedAliases ++ e := by
  unfold interopStep
  split
  · exact setAdd_eq_append _ _
  · exact ⟨[], by simp⟩

lemma rxjsStep_append (s : RuleState) (spec : SpecifierNode) :
    ∃ e, (rxjsStep s spec).rxjsTakeOperatorAliases =
      s.rxjsTakeOperatorAliases ++ e := by
  unfold rxjsStep
  split
  · exact setAdd_eq_append _ _
  · exact ⟨[], by simp⟩

lemma foldl_interop_append (l : List SpecifierNode) :
    ∀ s : RuleState, ∃ e, (l.foldl interopStep s).takeUntilDestroyedAliases =
      s.takeUntilDestroyedAliases ++ e := by
  induction l with
  | nil => exact fun s => ⟨[], by simp⟩
  | cons a as ih =>
    intro s
    obtain ⟨e₁, h₁⟩ := interopStep_append s a
    obtain ⟨e₂, h₂⟩ := ih (interopStep s a)
    exact ⟨e₁ ++ e₂, by simp [List.foldl_cons, h₂, h₁]⟩

lemma foldl_rxjs_append (l : List SpecifierNode) :
    ∀ s : RuleState, ∃ e, (l.foldl rxjsStep s).rxjsTakeOperatorAliases =
      s.rxjsTakeOperatorAliases ++ e := by
  induction l with
  | nil => exact fun s => ⟨[], by simp⟩
  | cons a as ih =>
    intro s
    obtain ⟨e₁, h₁⟩ := rxjsStep_append s a
    obtain ⟨e₂, h₂⟩ := ih (rxjsStep s a)
    exact ⟨e₁ ++ e₂, by simp [List.foldl_cons, h₂, h₁]⟩

lemma foldl_interop_rxjs_eq (l : List SpecifierNode) :
    ∀ s : RuleState, (l.foldl interopStep s).rxjsTakeOperatorAliases =
      s.rxjsTakeOperatorAliases := by
  induction l with
  | nil => exact fun _ => rfl
  | cons a as ih =>
    intro s
    simp [List.foldl_cons, ih (interopStep s a), interopStep_rxjs]

lemma foldl_rxjs_destroy_eq (l : List SpecifierNode) :
    ∀ s : RuleState, (l.foldl rxjsStep s).takeUntilDestroyedAliases =
      s.takeUntilDestroyedAliases := by
  induction l with
  | nil => exact fun _ => rfl
  | cons a as ih =>
    intro s
    simp [List.foldl_cons, ih (rxjsStep s a), rxjsStep_destroy]

lemma observeImport_destroy_append (st : RuleState)
    (node : ImportDeclarationNode) :
    ∃ e, (observeImport st node).takeUntilDestroyedAliases =
      st.takeUntilDestroyedAliases ++ e := by
  unfold observeImport
  split
  · split
    · obtain ⟨e, h⟩ := foldl_interop_append node.specifiers st
      exact ⟨e, by simp [foldl_rxjs_destroy_eq, h]⟩
    · exact foldl_interop_append node.specifiers st
  · split
    · exact ⟨[], by simp [foldl_rxjs_destroy_eq]⟩
    · exact ⟨[], by simp⟩

lemma observeImport_rxjs_append (st : RuleState)
    (node : ImportDeclarationNode) :
    ∃ e, (observeImport st node).rxjsTakeOperatorAliases =
      st.rxjsTakeOperatorAliases ++ e := by
  unfold observeImport
  split
  · split
    · obtain ⟨e, h⟩ := foldl_rxjs_append node.specifiers
        (node.specifiers.foldl interopStep st)
      exact ⟨e, by simp [h, foldl_interop_rxjs_eq]⟩
    · exact ⟨[], by simp [foldl_interop_rxjs_eq]⟩
  · split
    · exact foldl_rxjs_append node.specifiers st
    · exact ⟨[], by simp⟩

lemma mem_foldl_interop_of_mem (l : List SpecifierNode) (x : String) :
    ∀ s : RuleState, x ∈ s.takeUntilDestroyedAliases →
      x ∈ (l.foldl interopStep s).takeUntilDestroyedAliases := by
  intro s hx
  obtain ⟨e, h⟩ := foldl_interop_append l s
  rw [h]
  exact List.mem_append_left _ hx

lemma mem_foldl_rxjs_of_mem (l : List SpecifierNode) (x : String) :
    ∀ s : RuleState, x ∈ s.rxjsTakeOperatorAliases →
      x ∈ (l.foldl rxjsStep s).rxjsTakeOperatorAliases := by
  intro s hx
  obtain ⟨e, h⟩ := foldl_rxjs_append l s
  rw [h]
  exact List.mem_append_left _ hx

lemma mem_foldl_interop_of_spec (l : List SpecifierNode)
    (spec : SpecifierNode) :
    ∀ s : RuleState, spec ∈ l → isInteropTakeUntilDestroyed spec = true →
      spec.localName ∈ (l.foldl interopStep s).takeUntilDestroyedAliases := by
  induction l with
  | nil => intro _ h; cases h
  | cons a as ih =>
    intro s hmem hcond
    rw [List.foldl_cons]
    rcases List.mem_cons.mp hmem with heq | htl
    · subst heq
      apply mem_foldl_interop_of_mem
      unfold interopStep
      rw [hcond]
      simp only [if_true]
      exact mem_setAdd_self _ _
    · exact ih (interopStep s a) htl hcond

lemma mem_foldl_rxjs_of_spec (l : List SpecifierNode)
    (spec : SpecifierNode) :
    ∀ s : RuleState, spec ∈ l → isRxjsTakeOperator spec = true →
      spec.localName ∈ (l.foldl rxjsStep s).rxjsTakeOperatorAliases := by
  induction l with
  | nil => intro _ h; cases h
  | cons a as ih =>
    intro s hmem hcond
    rw [List.foldl_cons]
    rcases List.mem_cons.mp hmem with heq | htl
    · subst heq
      apply mem_foldl_rxjs_of_mem
      unfold rxjsStep
      rw [hcond]
      simp only [if_true]
      exact mem_setAdd_self _ _
    · exact ih (rxjsStep s a) htl hcond

lemma foldl_interop_id (l : List SpecifierNode)
    (h : ∀ spec ∈ l, isInteropTakeUntilDestroyed spec = false) :
    ∀ s : RuleState, l.foldl interopStep s = s := by
  induction l with
  | nil => exact fun _ => rfl
  | cons a as ih =>
    intro s
    have ha := h a (List.mem_cons_self a as)
    have hstep : interopStep s a = s := by unfold interopStep; rw [ha]; simp
    rw [List.foldl_cons, hstep]
    exact ih (fun spec hs => h spec (List.mem_cons_of_mem a hs)) s

lemma foldl_rxjs_id (l : List SpecifierNode)
    (h : ∀ spec ∈ l, isRxjsTakeOperator spec = false) :
    ∀ s : RuleState, l.foldl rxjsStep s = s := by
  induction l with
  | nil => exact fun _ => rfl
  | cons a as ih =>
    intro s
    have ha := h a (List.mem_cons_self a as)
    have hstep : rxjsStep s a = s := by unfold rxjsStep; rw [ha]; simp
    rw [List.foldl_cons, hstep]
    exact ih (fun spec hs => h spec (List.mem_cons_of_mem a hs)) s

/-! Helper lemmas about the classifier and the subscribe visitor. -/

lemma argMatches_directCall (d t : List String) (n : String)
    (a : Option (List Node)) (h : n ∈ d ∨ n ∈ t) :
    argMatches d t (directCall n a) = true := by
  unfold directCall argMatches
  rcases h with h | h <;> simp [h]

lemma check_pipe_of_match (d t : List String) (obj : Option Node)
    (args : List Node) (x : Node) (hmem : x ∈ args)
    (hmatch : argMatches d t x = true) :
    checkForTakeOperatorsInPipe (some (pipeNode obj args)) d t = true := by
  cases args with
  | nil => cases hmem
  | cons b bs =>
    have hred : checkForTakeOperatorsInPipe (some (pipeNode obj (b :: bs))) d t
        = (b :: bs).any (argMatches d t) := rfl
    rw [hred]
    exact List.any_eq_true.mpr ⟨x, hmem, hmatch⟩

lemma findPipe_pipeNode (obj : Option Node) (args : List Node) :
    findPipeCallBeforeSubscribe (some (pipeNode obj args)) =
      some (pipeNode obj args) := by
  simp [findPipeCallBeforeSubscribe, pipeNode, nodeName]

lemma processSubscribe_of_match (st : RuleState) (obj : Option Node)
    (args : List Node) (sargs : List Node) (x : Node) (hmem : x ∈ args)
    (hmatch : argMatches st.takeUntilDestroyedAliases
      st.rxjsTakeOperatorAliases x = true) :
    processSubscribe st ⟨some (pipeNode obj args), sargs⟩ = [] := by
  unfold processSubscribe
  rw [findPipe_pipeNode]
  simp [check_pipe_of_match _ _ obj args x hmem hmatch]

lemma isInterop_eq_false_of (spec : SpecifierNode)
    (h : ¬(spec.specType = "ImportSpecifier" ∧
      spec.imported = some "takeUntilDestroyed")) :
    isInteropTakeUntilDestroyed spec = false := by
  unfold isInteropTakeUntilDestroyed
  cases himp : spec.imported with
  | none => simp
  | some nm =>
    by_cases h1 : spec.specType = "ImportSpecifier"
    · by_cases h2 : nm = "takeUntilDestroyed"
      · exact absurd ⟨h1, by rw [himp, h2]⟩ h
      · simp [h2]
    · simp [h1]

lemma isRxjs_eq_false_of (spec : SpecifierNode)
    (h : ¬(spec.specType = "ImportSpecifier" ∧
      ∃ nm, spec.imported = some nm ∧ nm ∈ rxjsTakeOperators)) :
    isRxjsTakeOperator spec = false := by
  unfold isRxjsTakeOperator
  cases himp : spec.imported with
  | none => simp
  | some nm =>
    by_cases h1 : spec.specType = "ImportSpecifier"
    · by_cases h2 : nm ∈ rxjsTakeOperators
      · exact absurd ⟨h1, nm, himp, h2⟩ h
      · simp [h2]
    · simp [h1]

/-! The claims. -/

/-- C1 (counterexample): the bare-identifier heuristic is not
case-insensitive. The name `TAKE` contains `take` case-insensitively, yet
the classifier rejects it and the call site is reported. -/
theorem heuristic_not_case_insensitive :
    specCaseInsensitiveHeuristic "TAKE" = true ∧
    argMatches initialState.takeUntilDestroyedAliases
      initialState.rxjsTakeOperatorAliases (Node.Identifier "TAKE") = false ∧
    processSubscribe initialState
      ⟨some (pipeNode none [Node.Identifier "TAKE"]), []⟩ =
      [missingMessage] :=
  ⟨by decide, by decide, by decide⟩

/-- C1 (amended): a bare identifier argument is counted as a termination
operator iff its name contains one of the literal substrings `destroy`,
`Destroy`, `unsubscribe`, `Unsubscribe`, `take` (exact case); in
particular `destroyRef`, `unsubscribeAll` and `takeHandler` never yield a
diagnostic while `mapValue` does. -/
theorem bare_identifier_heuristic_exact_case (d t : List String)
    (name : String) :
    (argMatches d t (Node.Identifier name) =
      (strContains name "destroy" || strContains name "Destroy" ||
       strContains name "unsubscribe" || strContains name "Unsubscribe" ||
       strContains name "take")) ∧
    (∀ st : RuleState,
      processSubscribe st
        ⟨some (pipeNode none [Node.Identifier "destroyRef"]), []⟩ = [] ∧
      processSubscribe st
        ⟨some (pipeNode none [Node.Identifier "unsubscribeAll"]), []⟩ = [] ∧
      processSubscribe st
        ⟨some (pipeNode none [Node.Identifier "takeHandler"]), []⟩ = [] ∧
      processSubscribe st
        ⟨some (pipeNode none [Node.Identifier "mapValue"]), []⟩ =
        [missingMessage]) :=
  ⟨rfl, fun _ => ⟨rfl, rfl, rfl, rfl⟩⟩

/-- C2: importing `takeUntilDestroyed` from `@angular/core/rxjs-interop`
under a local name `L` adds `L` to the destroy-alias set, and a subscribe
site whose pipe call contains a direct call `L(...)` yields no
diagnostic. -/
theorem interop_import_alias_no_diagnostic (st : RuleState)
    (node : ImportDeclarationNode) (L : String)
    (hsrc : node.source = "@angular/core/rxjs-interop")
    (hspec : (⟨"ImportSpecifier", some "takeUntilDestroyed", L⟩ :
      SpecifierNode) ∈ node.specifiers) :
    L ∈ (observeImport st node).takeUntilDestroyedAliases ∧
    ∀ (obj : Option Node) (pre post : List Node) (a : Option (List Node))
      (sargs : List Node),
      processSubscribe (observeImport st node)
        ⟨some (pipeNode obj (pre ++ directCall L a :: post)), sargs⟩ =
        [] := by
  have hL : L ∈ (observeImport st node).takeUntilDestroyedAliases := by
    have hmem := mem_foldl_interop_of_spec node.specifiers
      ⟨"ImportSpecifier", some "takeUntilDestroyed", L⟩ st hspec rfl
    simp only [observeImport, hsrc]
    rw [if_neg (by decide), if_pos (by decide)]
    exact hmem
  refine ⟨hL, fun obj pre post a sargs => ?_⟩
  exact processSubscribe_of_match _ _ _ _ (directCall L a) (by simp)
    (argMatches_directCall _ _ L a (Or.inl hL))

/-- C2 (witness): a concrete interop import under the alias `tud`
followed by `x.pipe(tud()).subscribe(...)` yields no diagnostic. -/
theorem interop_import_alias_no_diagnostic_witness :
    processSubscribe
      (observeImport initialState
        ⟨"@angular/core/rxjs-interop",
         [⟨"ImportSpecifier", some "takeUntilDestroyed", "tud"⟩]⟩)
      ⟨some (pipeNode none ([] ++ directCall "tud" (some []) :: [])), []⟩ =
      [] :=
  (interop_import_alias_no_diagnostic initialState
    ⟨"@angular/core/rxjs-interop",
     [⟨"ImportSpecifier", some "takeUntilDestroyed", "tud"⟩]⟩ "tud" rfl
    (List.mem_singleton.mpr rfl)).2 none [] [] (some []) []

/-- C3: importing one of `takeUntil`, `takeWhile`, `take`, `takeLast` from
`rxjs` or `rxjs/operators` under a local name `L` adds `L` to the
take-alias set, and the classifier gives a direct call `L(...)` the same
verdict as the unaliased canonical name in the same surrounding
arguments. -/
theorem rxjs_import_alias_same_verdict (st : RuleState)
    (node : ImportDeclarationNode) (E L : String)
    (hsrc : node.source = "rxjs" ∨ node.source = "rxjs/operators")
    (hE : E ∈ rxjsTakeOperators)
    (hseed : E ∈ st.rxjsTakeOperatorAliases)
    (hspec : (⟨"ImportSpecifier", some E, L⟩ : SpecifierNode) ∈
      node.specifiers) :
    L ∈ (observeImport st node).rxjsTakeOperatorAliases ∧
    ∀ (obj : Option Node) (pre post : List Node)
      (a a' : Option (List Node)) (sargs sargs' : List Node),
      processSubscribe (observeImport st node)
        ⟨some (pipeNode obj (pre ++ directCall L a :: post)), sargs⟩ =
      processSubscribe (observeImport st node)
        ⟨some (pipeNode obj (pre ++ directCall E a' :: post)), sargs'⟩ := by
  have hcond : isRxjsTakeOperator ⟨"ImportSpecifier", some E, L⟩ = true := by
    unfold isRxjsTakeOperator
    simp [hE]
  have hL : L ∈ (observeImport st node).rxjsTakeOperatorAliases := by
    unfold observeImport
    have hsrc' : (node.source == "rxjs" || node.source == "rxjs/operators")
        = true := by
      rcases hsrc with h | h <;> simp [h]
    rw [if_pos hsrc']
    exact mem_foldl_rxjs_of_spec node.specifiers
      ⟨"ImportSpecifier", some E, L⟩ _ hspec hcond
  have hEmem : E ∈ (observeImport st node).rxjsTakeOperatorAliases := by
    obtain ⟨e, he⟩ := observeImport_rxjs_append st node
    rw [he]
    exact List.mem_append_left _ hseed
  refine ⟨hL, fun obj pre post a a' sargs sargs' => ?_⟩
  rw [processSubscribe_of_match _ _ _ _ (directCall L a) (by simp)
      (argMatches_directCall _ _ L a (Or.inr hL)),
    processSubscribe_of_match _ _ _ _ (directCall E a') (by simp)
      (argMatches_directCall _ _ E a' (Or.inr hEmem))]

/-- C3 (witness): after `import { takeUntil as tu } from 'rxjs'`, the
verdict for `x.pipe(tu()).subscribe(...)` equals the verdict for
`x.pipe(takeUntil()).subscribe(...)`. -/
theorem rxjs_import_alias_same_verdict_witness :
    "tu" ∈ (observeImport initialState
      ⟨"rxjs", [⟨"ImportSpecifier", some "takeUntil", "tu"⟩]⟩
      ).rxjsTakeOperatorAliases ∧
    processSubscribe
      (observeImport initialState
        ⟨"rxjs", [⟨"ImportSpecifier", some "takeUntil", "tu"⟩]⟩)
      ⟨some (pipeNode none ([] ++ directCall "tu" none :: [])), []⟩ =
    processSubscribe
      (observeImport initialState
        ⟨"rxjs", [⟨"ImportSpecifier", some "takeUntil", "tu"⟩]⟩)
      ⟨some (pipeNode none ([] ++ directCall "takeUntil" none :: [])),
        []⟩ := by
  have h := rxjs_import_alias_same_verdict initialState
    ⟨"rxjs", [⟨"ImportSpecifier", some "takeUntil", "tu"⟩]⟩
    "takeUntil" "tu" (Or.inl rfl) (by decide) (by decide)
    (List.mem_singleton.mpr rfl)
  exact ⟨h.1, h.2 none [] [] none none [] []⟩

/-- C4: a subscribe call site reports exactly one diagnostic, with the
single fixed message id, iff no pipe call is found or the classifier is
negative; the visitor never reports anything else, never consults the
arguments of `subscribe` itself, and a subscribe with no preceding pipe
call always yields the diagnostic. -/
theorem subscribe_diagnostic_iff (st : RuleState) (node : SubscribeCallNode) :
    (processSubscribe st node = [missingMessage] ↔
      (findPipeCallBeforeSubscribe node.calleeObject = none ∨
       checkForTakeOperatorsInPipe (findPipeCallBeforeSubscribe node.calleeObject)
         st.takeUntilDestroyedAliases st.rxjsTakeOperatorAliases = false)) ∧
    (processSubscribe st node = [missingMessage] ∨
     processSubscribe st node = []) ∧
    (∀ args' : List Node,
      processSubscribe st node = processSubscribe st ⟨node.calleeObject, args'⟩) ∧
    (findPipeCallBeforeSubscribe node.calleeObject = none →
      processSubscribe st node = [missingMessage]) := by
  obtain ⟨obj, sargs⟩ := node
  cases hp : findPipeCallBeforeSubscribe obj with
  | none =>
    refine ⟨?_, ?_, ?_, ?_⟩ <;> simp [processSubscribe, hp]
  | some p =>
    cases hc : checkForTakeOperatorsInPipe (some p)
        st.takeUntilDestroyedAliases st.rxjsTakeOperatorAliases with
    | true =>
      refine ⟨?_, ?_, ?_, ?_⟩ <;> simp [processSubscribe, hp, hc, missingMessage]
    | false =>
      refine ⟨?_, ?_, ?_, ?_⟩ <;> simp [processSubscribe, hp, hc]

/-- C4 (witness): `x.subscribe(cb)` with no pipe call yields the
diagnostic. -/
theorem subscribe_diagnostic_iff_witness :
    processSubscribe initialState ⟨some (Node.Identifier "x"), [Node.Other]⟩ =
      [missingMessage] :=
  (subscribe_diagnostic_iff initialState
    ⟨some (Node.Identifier "x"), [Node.Other]⟩).2.2.2 rfl

/-- C5: when any pipe argument is a direct call to a name in either alias
set, at any position among arbitrary other arguments, the classifier is
positive and no diagnostic is emitted. -/
theorem pipe_matching_arg_no_diagnostic (st : RuleState) (obj : Option Node)
    (pre post : List Node) (n : String) (a : Option (List Node))
    (sargs : List Node)
    (h : n ∈ st.takeUntilDestroyedAliases ∨ n ∈ st.rxjsTakeOperatorAliases) :
    checkForTakeOperatorsInPipe
      (some (pipeNode obj (pre ++ directCall n a :: post)))
      st.takeUntilDestroyedAliases st.rxjsTakeOperatorAliases = true ∧
    processSubscribe st
      ⟨some (pipeNode obj (pre ++ directCall n a :: post)), sargs⟩ = [] := by
  have hx : directCall n a ∈ pre ++ directCall n a :: post := by simp
  have hm := argMatches_directCall st.takeUntilDestroyedAliases
    st.rxjsTakeOperatorAliases n a h
  exact ⟨check_pipe_of_match _ _ _ _ _ hx hm,
    processSubscribe_of_match _ _ _ _ _ hx hm⟩

/-- C5 (witness): `x.pipe(map(f), take(1)).subscribe(cb)` with the seeded
alias sets yields no diagnostic. -/
theorem pipe_matching_arg_no_diagnostic_witness :
    ("take" ∈ initialState.takeUntilDestroyedAliases ∨
     "take" ∈ initialState.rxjsTakeOperatorAliases) ∧
    processSubscribe initialState
      ⟨some (pipeNode (some (Node.Identifier "x"))
        ([directCall "map" (some [Node.Other])] ++
          directCall "take" (some [Node.Other]) :: [])), [Node.Other]⟩ =
      [] :=
  ⟨Or.inr (by decide),
    (pipe_matching_arg_no_diagnostic initialState
      (some (Node.Identifier "x")) [directCall "map" (some [Node.Other])] []
      "take" (some [Node.Other]) [Node.Other] (Or.inr (by decide))).2⟩

/-- C6: a pipe call with zero arguments makes the classifier return false
and the subscribe site always yields the diagnostic. -/
theorem pipe_zero_args_diagnostic (st : RuleState) (obj : Option Node)
    (sargs : List Node) :
    checkForTakeOperatorsInPipe (some (pipeNode obj []))
      st.takeUntilDestroyedAliases st.rxjsTakeOperatorAliases = false ∧
    processSubscribe st ⟨some (pipeNode obj []), sargs⟩ = [missingMessage] :=
  ⟨rfl, rfl⟩

/-- C7: the chain locator and the classifier are total and return the
no-match result on malformed input: a null receiver, an absent or
non-member-access callee, or an absent argument list; consequently every
subscribe call site receives a verdict (exactly one of the two possible
outputs). -/
theorem traversal_total_guards :
    (findPipeCallBeforeSubscribe none = none) ∧
    (∀ a : Option (List Node),
      findPipeCallBeforeSubscribe (some (Node.CallExpression none a)) = none) ∧
    (∀ (n : String) (a : Option (List Node)),
      findPipeCallBeforeSubscribe
        (some (Node.CallExpression (some (Node.Identifier n)) a)) = none) ∧
    (∀ d t : List String, checkForTakeOperatorsInPipe none d t = false) ∧
    (∀ (p : Node) (d t : List String), nodeArguments p = none →
      checkForTakeOperatorsInPipe (some p) d t = false) ∧
    (∀ (st : RuleState) (node : SubscribeCallNode),
      processSubscribe st node = [missingMessage] ∨
      processSubscribe st node = []) := by
  refine ⟨rfl, fun _ => rfl, fun _ _ => rfl, fun _ _ => rfl, ?_, ?_⟩
  · intro p d t h
    simp [checkForTakeOperatorsInPipe, h]
  · intro st node
    unfold processSubscribe
    cases findPipeCallBeforeSubscribe node.calleeObject with
    | none => exact Or.inl rfl
    | some p =>
      cases hc : checkForTakeOperatorsInPipe (some p)
          st.takeUntilDestroyedAliases st.rxjsTakeOperatorAliases <;>
        simp [hc]

/-- C7 (witness): a non-call node has no argument list and the classifier
returns false on it. -/
theorem traversal_total_guards_witness :
    checkForTakeOperatorsInPipe (some Node.Other) [] [] = false :=
  traversal_total_guards.2.2.2.2.1 Node.Other [] [] rfl

/-- C8: the two alias sets start from exactly their seed members, and
observing an import only appends members (membership is never lost). -/
theorem alias_sets_append_only :
    (initialState.takeUntilDestroyedAliases = ["takeUntilDestroyed"]) ∧
    (initialState.rxjsTakeOperatorAliases =
      ["takeUntil", "takeWhile", "take", "takeLast"]) ∧
    (∀ (st : RuleState) (node : ImportDeclarationNode),
      (∃ e, (observeImport st node).takeUntilDestroyedAliases =
        st.takeUntilDestroyedAliases ++ e) ∧
      (∃ e, (observeImport st node).rxjsTakeOperatorAliases =
        st.rxjsTakeOperatorAliases ++ e)) ∧
    (∀ (st : RuleState) (node : ImportDeclarationNode) (x : String),
      (x ∈ st.takeUntilDestroyedAliases →
        x ∈ (observeImport st node).takeUntilDestroyedAliases) ∧
      (x ∈ st.rxjsTakeOperatorAliases →
        x ∈ (observeImport st node).rxjsTakeOperatorAliases)) := by
  refine ⟨rfl, rfl,
    fun st node => ⟨observeImport_destroy_append st node,
      observeImport_rxjs_append st node⟩, ?_⟩
  intro st node x
  constructor
  · intro hx
    obtain ⟨e, h⟩ := observeImport_destroy_append st node
    rw [h]
    exact List.mem_append_left _ hx
  · intro hx
    obtain ⟨e, h⟩ := observeImport_rxjs_append st node
    rw [h]
    exact List.mem_append_left _ hx

/-- C8 (witness): the seed member survives observing a concrete import. -/
theorem alias_sets_append_only_witness :
    "takeUntilDestroyed" ∈
      (observeImport initialState
        ⟨"rxjs", [⟨"ImportSpecifier", some "take", "t"⟩]⟩
        ).takeUntilDestroyedAliases :=
  (alias_sets_append_only.2.2.2 initialState
    ⟨"rxjs", [⟨"ImportSpecifier", some "take", "t"⟩]⟩
    "takeUntilDestroyed").1 (by decide)

/-- C9: the legacy wrapper returns exactly the value of the new
classifier with an empty take-alias set. -/
theorem legacy_wrapper_equiv :
    ∀ (pipeCall : Option Node) (aliases : List String),
      checkForTakeUntilDestroyedInPipe pipeCall aliases =
        checkForTakeOperatorsInPipe pipeCall aliases [] :=
  fun _ _ => rfl

/-- C10: an import whose module/export pairing matches neither branch
(wrong module, wrong exported name for the module, or a specifier that is
not a named ImportSpecifier) leaves the rule state unchanged. -/
theorem observeImport_frame (st : RuleState) (node : ImportDeclarationNode)
    (h : ∀ spec ∈ node.specifiers,
      ¬(node.source = "@angular/core/rxjs-interop" ∧
        spec.specType = "ImportSpecifier" ∧
        spec.imported = some "takeUntilDestroyed") ∧
      ¬((node.source = "rxjs" ∨ node.source = "rxjs/operators") ∧
        spec.specType = "ImportSpecifier" ∧
        ∃ nm, spec.imported = some nm ∧ nm ∈ rxjsTakeOperators)) :
    observeImport st node = st := by
  have h1 : (if node.source == "@angular/core/rxjs-interop" then
      node.specifiers.foldl interopStep st else st) = st := by
    by_cases hi : node.source = "@angular/core/rxjs-interop"
    · rw [if_pos (by simp [hi])]
      exact foldl_interop_id node.specifiers
        (fun spec hs => isInterop_eq_false_of spec
          (fun hc => (h spec hs).1 ⟨hi, hc.1, hc.2⟩)) st
    · rw [if_neg (by simp [hi])]
  unfold observeImport
  rw [h1]
  by_cases hr : node.source = "rxjs" ∨ node.source = "rxjs/operators"
  · rw [if_pos (by rcases hr with h' | h' <;> simp [h'])]
    exact foldl_rxjs_id node.specifiers
      (fun spec hs => isRxjs_eq_false_of spec
        (fun hc => (h spec hs).2 ⟨hr, hc.1, hc.2⟩)) st
  · rw [if_neg (by simp [not_or.mp hr])]

/-- C10 (witness): importing `takeUntilDestroyed` from `rxjs` registers
no alias. -/
theorem observeImport_frame_witness :
    observeImport initialState
      ⟨"rxjs", [⟨"ImportSpecifier", some "takeUntilDestroyed", "tud"⟩]⟩ =
      initialState := by
  refine observeImport_frame initialState
    ⟨"rxjs", [⟨"ImportSpecifier", some "takeUntilDestroyed", "tud"⟩]⟩ ?_
  intro spec hs
  rw [List.mem_singleton] at hs
  subst hs
  constructor
  · intro hc
    exact absurd hc.1 (by decide)
  · intro hc
    obtain ⟨_, _, nm, hnm, hmem⟩ := hc
    cases hnm
    exact absurd hmem (by decide)

end TakeUntilDestroyedRule
